import Mathlib

/-!
Verification of the analysis-processing pipeline of the checklist app
backend (`backend/app/analysis_queue.py`, `backend/app/websocket_manager.py`,
`backend/app/services/ai_service.py`, `backend/app/api/routes/analysis.py`).

The Python code is shallowly embedded: the queue manager's mutable state
becomes an explicit state record acted on by pure functions, the per-job
processing loop becomes a recursive function emitting an event trace,
database tables become lists of row records (a query without `ORDER BY`
returns rows in table order), the external AI evaluator becomes an
oracle parameter returning `Except`, and the float arithmetic of the
progress expression is modelled exactly as IEEE 754 binary64 over `ℚ`
(correct rounding to a 53-bit mantissa, ties to even).
-/

namespace ForgentChecklist

/-! ## Queue manager (`AnalysisQueue` in `analysis_queue.py`) -/

/-- State of `AnalysisQueue`: `queue` is the pending list of analysis IDs
(line 22), `processing` the key set of the `processing` dict (line 23),
kept as a duplicate-free list. -/
structure QueueState where
  queue : List Nat
  processing : List Nat
  deriving Repr, DecidableEq

/-- The `max_concurrent` field, set to 2 in `AnalysisQueue.__init__`. -/
def max_concurrent : Nat := 2

/-- The initial queue state built by `AnalysisQueue.__init__`. -/
def initState : QueueState := ⟨[], []⟩

/-- Embedding of `AnalysisQueue.add_analysis` (lines 29–59).  The guard is
`if analysis_id not in self.queue` — it checks the pending list only, never
the `processing` dict.  When the ID is fresh it is appended and a
`queue_update` payload `(len(self.queue), len(self.queue))` is produced for
the owner (lines 46–48; the database lookup of the owner is elided here —
the payload's value does not depend on it); otherwise nothing happens at
all.  Returns the new state together with the optional
`(queue_position, total_in_queue)` payload. -/
def add_analysis (s : QueueState) (analysis_id : Nat) :
    QueueState × Option (Nat × Nat) :=
  if analysis_id ∈ s.queue then (s, none)
  else
    let q := s.queue ++ [analysis_id]
    ({ s with queue := q }, some (q.length, q.length))

/-- Setting `self.processing[analysis_id] = True` on a Python dict: the key
is appended when absent and the dict is unchanged when present. -/
def dictInsert (l : List Nat) (k : Nat) : List Nat :=
  if k ∈ l then l else l ++ [k]

/-- Embedding of the loop body of `AnalysisQueue._process_available_analyses`
(lines 78–85): while the pending list is non-empty and
`len(self.processing) < self.max_concurrent`, pop the head, mark it
processing, and start a runner task for it.  The whole loop runs without an
`await`, hence atomically on the asyncio event loop.  Arguments are the
pending list and the processing set; the result is the remaining pending
list, the new processing set, and the IDs for which a runner task was
created, in creation order. -/
def drainAux : List Nat → List Nat → List Nat × List Nat × List Nat
  | [], p => ([], p, [])
  | a :: rest, p =>
    if p.length < max_concurrent then
      let r := drainAux rest (dictInsert p a)
      (r.1, r.2.1, a :: r.2.2)
    else (a :: rest, p, [])

/-- Embedding of `_process_available_analyses` on a `QueueState`; also
returns the list of analysis IDs for which a runner was started. -/
def drain (s : QueueState) : QueueState × List Nat :=
  let r := drainAux s.queue s.processing
  (⟨r.1, r.2.1⟩, r.2.2)

/-- Embedding of the `finally` clause of `AnalysisQueue.process_analysis`
(line 224): `self.processing.pop(analysis_id, None)` removes the job from
the processing dict when the runner finishes. -/
def onJobFinished (s : QueueState) (analysis_id : Nat) : QueueState :=
  { s with processing := s.processing.filter (fun k => k ≠ analysis_id) }

/-- One scheduler-visible step: a submission, a drain pass, or a runner
finishing.  Each of these runs atomically between awaits of the single
asyncio event loop. -/
inductive QStep : QueueState → QueueState → Prop
  | submit (s : QueueState) (id : Nat) : QStep s (add_analysis s id).1
  | drain (s : QueueState) : QStep s (drain s).1
  | finished (s : QueueState) (id : Nat) : QStep s (onJobFinished s id)

/-- States reachable from the freshly constructed queue by any interleaving
of submit / drain / finished steps. -/
def QReachable (s : QueueState) : Prop :=
  Relation.ReflTransGen QStep initState s

lemma dictInsert_length (l : List Nat) (k : Nat) :
    (dictInsert l k).length ≤ l.length + 1 := by
  unfold dictInsert
  split
  · exact Nat.le_succ _
  · simp

lemma drainAux_processing_le (q p : List Nat) (hp : p.length ≤ max_concurrent) :
    (drainAux q p).2.1.length ≤ max_concurrent := by
  induction q generalizing p with
  | nil => simpa [drainAux] using hp
  | cons a rest ih =>
    unfold drainAux
    split
    · rename_i hlt
      exact ih (dictInsert p a) (le_trans (dictInsert_length p a) hlt)
    · simpa using hp

lemma qstep_processing_le {s t : QueueState} (h : QStep s t)
    (hs : s.processing.length ≤ max_concurrent) :
    t.processing.length ≤ max_concurrent := by
  cases h with
  | submit id =>
    unfold add_analysis
    split <;> simpa using hs
  | drain => exact drainAux_processing_le s.queue s.processing hs
  | finished id =>
    exact le_trans (List.length_filter_le _ _) hs

/-- The claim `C2`: in every reachable state of the queue manager, under any
interleaving of submit, drain and job-finished steps, the number of IDs in
the processing set is at most the capacity `max_concurrent = 2`. -/
theorem processing_never_exceeds_capacity (s : QueueState)
    (h : QReachable s) : s.processing.length ≤ max_concurrent := by
  induction h with
  | refl => simp [initState]
  | tail _ hstep ih => exact qstep_processing_le hstep ih

/-- Witness for `C2` at a concrete reachable state: submit job 1, drain,
submit job 2, drain, submit job 3 (capacity full), drain again. -/
theorem processing_never_exceeds_capacity_witness :
    ((drain (add_analysis (drain (add_analysis
      (drain (add_analysis initState 1).1).1 2).1).1 3).1).1).processing.length
      ≤ max_concurrent := by
  refine processing_never_exceeds_capacity _ ?_
  refine Relation.ReflTransGen.tail (Relation.ReflTransGen.tail
    (Relation.ReflTransGen.tail (Relation.ReflTransGen.tail
      (Relation.ReflTransGen.tail (Relation.ReflTransGen.tail
        Relation.ReflTransGen.refl
        (QStep.submit initState 1)) (QStep.drain _)) (QStep.submit _ 2))
          (QStep.drain _)) (QStep.submit _ 3)) (QStep.drain _)

/-- The queue state reached from the initial state by submitting job 1 and
draining: job 1 is in the processing set and the pending list is empty. -/
def busyState : QueueState := (drain (add_analysis initState 1).1).1

/-- Counterexample to `C1` as stated: in `busyState`, job 1 is currently
processing.  Submitting job 1 a second time appends it to the pending list
again, and the next drain starts a second runner task for job 1 while the
first is still in `processing`.  The guard in `add_analysis` consults only
the pending list, never the processing set. -/
theorem duplicate_submit_counterexample :
    1 ∈ busyState.processing ∧ busyState.queue = [] ∧
    (add_analysis busyState 1).1.queue = [1] ∧
    (drain (add_analysis busyState 1).1).2 = [1] ∧
    1 ∈ (drain (add_analysis busyState 1).1).1.processing := by
  decide

/-- The amended claim `C1`: re-submitting a job ID that is still pending in
the queue is a complete no-op — no duplicate pending entry, no
notification, no state change (and hence no new runner from the unchanged
state).  The protection does not extend to IDs that are only in the
processing set: those are re-enqueued and can get a second concurrent
runner (see the counterexample). -/
theorem duplicate_submit_pending_noop (s : QueueState) (id : Nat)
    (h : id ∈ s.queue) : add_analysis s id = (s, none) := by
  unfold add_analysis
  simp [h]

/-- Witness for the amended `C1`: job 7 is pending, re-submitting it
changes nothing. -/
theorem duplicate_submit_pending_noop_witness :
    7 ∈ (⟨[7], [4]⟩ : QueueState).queue ∧
      add_analysis ⟨[7], [4]⟩ 7 = (⟨[7], [4]⟩, none) :=
  ⟨by decide, duplicate_submit_pending_noop ⟨[7], [4]⟩ 7 (by decide)⟩

/-- Counterexample to `C6` as stated: submitting job 5 to the empty queue
sends the payload `(1, 1)` — `add_analysis` sends `len(self.queue)` after
the append — although the count of jobs ahead of job 5 (its zero-based
index in the pending list) is 0. -/
theorem queue_position_counterexample :
    (add_analysis initState 5).2 = some (1, 1) ∧
    (add_analysis initState 5).1.queue = [5] ∧
    (add_analysis initState 5).1.queue.indexOf 5 = 0 ∧ (1 : Nat) ≠ 0 := by
  decide

/-- The amended claim `C6`: the queue-position notification for a fresh job
ID carries the length of the pending sequence after the append, i.e. the
job's one-based position — the count of jobs ahead of it plus one — and the
same value as total-in-queue. -/
theorem queue_position_one_based (s : QueueState) (id : Nat)
    (h : id ∉ s.queue) :
    (add_analysis s id).2 = some (s.queue.length + 1, s.queue.length + 1) ∧
    (add_analysis s id).1.queue.length = s.queue.length + 1 := by
  unfold add_analysis
  simp [h]

/-- Witness for the amended `C6`: submitting job 9 while job 3 is pending
sends position 2 = 1 + 1. -/
theorem queue_position_one_based_witness :
    9 ∉ (⟨[3], []⟩ : QueueState).queue ∧
      (add_analysis ⟨[3], []⟩ 9).2 = some (2, 2) :=
  ⟨by decide, by
    have h := queue_position_one_based ⟨[3], []⟩ 9 (by decide)
    simpa using h.1⟩

/-! ## Database rows (`models.py`) and queries used by `process_analysis` -/

/-- Row of the `analyses` table (class `Analysis`), fields used by the
pipeline. -/
structure AnalysisR where
  id : Nat
  owner_id : Nat
  checklist_id : Nat
  ai_model : String
  deriving Repr, DecidableEq

/-- Row of the `documents` table (class `Document`), fields used by the
pipeline. -/
structure DocumentR where
  id : Nat
  original_filename : String
  content : String
  deriving Repr, DecidableEq

/-- Row of the `checklists` table (class `Checklist`); only the primary key
matters to the pipeline. -/
structure ChecklistR where
  id : Nat
  deriving Repr, DecidableEq

/-- Row of the `checklist_items` table (class `ChecklistItem`); `order` is
the display-order column. -/
structure ChecklistItemR where
  id : Nat
  checklist_id : Nat
  type : String
  text : String
  order : Nat
  deriving Repr, DecidableEq

/-- The database: every table is the list of its rows in table (row-id)
order.  A SQLAlchemy query with `filter(...)` and no `order_by` returns the
matching rows in table order, which is how each query below is embedded. -/
structure DB where
  analyses : List AnalysisR
  analysis_documents : List (Nat × Nat)
  documents : List DocumentR
  checklists : List ChecklistR
  checklist_items : List ChecklistItemR
  deriving Repr, DecidableEq

/-- Embedding of `db.query(AnalysisDocument).filter(analysis_id == ...)`
(lines 118–122): rows of the association table for one analysis, in table
order. -/
def queryAnalysisDocs (db : DB) (aid : Nat) : List (Nat × Nat) :=
  db.analysis_documents.filter (fun r => r.1 = aid)

/-- The comprehension `[ad.document_id for ad in analysis_docs]`
(line 123). -/
def document_ids (db : DB) (aid : Nat) : List Nat :=
  (queryAnalysisDocs db aid).map (fun r => r.2)

/-- Embedding of `db.query(Document).filter(Document.id.in_(document_ids))`
(lines 124–126): the `in_` clause keeps documents-table row order, not the
association order of `document_ids`. -/
def queryDocuments (db : DB) (aid : Nat) : List DocumentR :=
  db.documents.filter (fun d => d.id ∈ document_ids db aid)

/-- Embedding of `db.query(Checklist).filter(id == ...).first()`
(lines 128–132). -/
def queryChecklist (db : DB) (cid : Nat) : Option ChecklistR :=
  db.checklists.find? (fun c => c.id == cid)

/-- Embedding of `db.query(ChecklistItem).filter(checklist_id == ...).all()`
(lines 144–148).  There is no `order_by`, so the rows come back in table
order — in particular not sorted by the `order` column. -/
def queryChecklistItems (db : DB) (cid : Nat) : List ChecklistItemR :=
  db.checklist_items.filter (fun it => it.checklist_id = cid)

/-- Payload returned by `AIService.analyze_document_item` for one unit
(the dict built at lines 168–174 of `ai_service.py`).  `confidence_score`
is a rational, idealizing the Python float. -/
structure AIResult where
  answer : String
  condition_result : Option Bool
  confidence_score : ℚ
  evidence : String
  page_references : List Int
  deriving Repr, DecidableEq

/-- Row of the `analysis_results` table as built at lines 179–189 of
`analysis_queue.py`. -/
structure AnalysisResultRow where
  analysis_id : Nat
  checklist_item_id : Nat
  document_id : Nat
  document_name : String
  answer : String
  condition_result : Option Bool
  confidence_score : ℚ
  evidence : String
  page_references : List Int
  deriving Repr, DecidableEq

/-- Observable actions of one `process_analysis` run: a
`send_analysis_update` broadcast (status, optional progress, optional
error), the AI evaluation of one unit, and the persistence of one result
row.  `send_analysis_update` itself never raises (its per-connection
`try/except` swallows send errors), so broadcasts are unconditional
events. -/
inductive TraceEntry where
  | update (analysis_id : Nat) (status : String) (progress : Option Nat)
      (error : Option String)
  | evalUnit (checklist_item_id : Nat) (document_id : Nat)
  | saveResult (row : AnalysisResultRow)
  deriving Repr, DecidableEq

/-- The nested iteration `for item in checklist_items: for doc in documents:`
(lines 154–155) flattened into the sequence of processing units. -/
def units (items : List ChecklistItemR) (docs : List DocumentR) :
    List (ChecklistItemR × DocumentR) :=
  items.flatMap (fun it => docs.map (fun d => (it, d)))

/-- The result row built from a successful unit evaluation
(lines 172–189): the document id and name are attached to the payload and
the row is committed. -/
def mkRow (aid : Nat) (it : ChecklistItemR) (d : DocumentR) (r : AIResult) :
    AnalysisResultRow :=
  { analysis_id := aid, checklist_item_id := it.id, document_id := d.id,
    document_name := d.original_filename, answer := r.answer,
    condition_result := r.condition_result,
    confidence_score := r.confidence_score, evidence := r.evidence,
    page_references := r.page_references }

/-! ## Binary64 model of the progress expression

The progress broadcast at line 158 of `analysis_queue.py` computes
`int((current_item / total_items) * 100)` in Python floats (IEEE 754
binary64).  The functions below model that arithmetic exactly over `ℚ`:
a binary64 value is a rational with a 53-bit mantissa, and every operation
rounds its exact rational result to the nearest such value, ties to even. -/

/-- Fuel-driven helper for the base-2 logarithm on naturals; structural
recursion so that it reduces in the kernel. -/
def natLog2Aux : ℕ → ℕ → ℕ
  | 0, _ => 0
  | fuel + 1, n => if n ≤ 1 then 0 else natLog2Aux fuel (n / 2) + 1

/-- Base-2 logarithm of a positive natural: the greatest `t` with
`2 ^ t ≤ n`. -/
def natLog2 (n : ℕ) : ℕ := natLog2Aux n n

lemma natLog2Aux_spec : ∀ (fuel n : ℕ), 1 ≤ n → n ≤ fuel →
    2 ^ natLog2Aux fuel n ≤ n ∧ n < 2 ^ (natLog2Aux fuel n + 1) := by
  intro fuel
  induction fuel with
  | zero => intro n h1 h2; omega
  | succ f ih =>
    intro n h1 h2
    by_cases hn : n ≤ 1
    · have hone : n = 1 := by omega
      subst hone
      simp [natLog2Aux]
    · have h1' : 1 ≤ n / 2 := by omega
      have h2' : n / 2 ≤ f := by omega
      obtain ⟨ha, hb⟩ := ih (n / 2) h1' h2'
      simp only [natLog2Aux, if_neg hn]
      have e1 : (2:ℕ) ^ (natLog2Aux f (n / 2) + 1) = 2 * 2 ^ natLog2Aux f (n / 2) := by
        ring
      have e2 : (2:ℕ) ^ (natLog2Aux f (n / 2) + 1 + 1) =
          4 * 2 ^ natLog2Aux f (n / 2) := by ring
      omega

lemma natLog2_spec (n : ℕ) (h : 1 ≤ n) :
    2 ^ natLog2 n ≤ n ∧ n < 2 ^ (natLog2 n + 1) :=
  natLog2Aux_spec n n h le_rfl

example : natLog2 57 = 5 := by decide
example : natLog2 1 = 0 := by decide

/-- Floor of the base-2 logarithm of a positive rational: the unique `s`
with `2 ^ s ≤ q < 2 ^ (s + 1)` (see `flog2_spec`). -/
def flog2 (q : ℚ) : ℤ :=
  if 1 ≤ q then (natLog2 ⌊q⌋.toNat : ℤ)
  else if (2 : ℚ) ^ (-(natLog2 ⌊1 / q⌋.toNat : ℤ)) ≤ q then
    -(natLog2 ⌊1 / q⌋.toNat : ℤ)
  else -(natLog2 ⌊1 / q⌋.toNat : ℤ) - 1

lemma flog2_spec (q : ℚ) (hq : 0 < q) :
    (2 : ℚ) ^ flog2 q ≤ q ∧ q < (2 : ℚ) ^ (flog2 q + 1) := by
  by_cases h1 : 1 ≤ q
  · have hfl : (1:ℤ) ≤ ⌊q⌋ := Int.le_floor.mpr (by exact_mod_cast h1)
    have hn1 : 1 ≤ ⌊q⌋.toNat := by omega
    obtain ⟨ha, hb⟩ := natLog2_spec ⌊q⌋.toNat hn1
    have hcast : ((⌊q⌋.toNat : ℕ) : ℚ) = ((⌊q⌋ : ℤ) : ℚ) := by
      exact_mod_cast congrArg (fun z : ℤ => (z : ℚ)) (Int.toNat_of_nonneg (by omega))
    simp only [flog2, if_pos h1]
    constructor
    · rw [show ((natLog2 ⌊q⌋.toNat : ℕ) : ℤ) = ((natLog2 ⌊q⌋.toNat : ℕ) : ℤ) from rfl,
        zpow_natCast]
      calc ((2:ℚ) ^ natLog2 ⌊q⌋.toNat)
          = ((2 ^ natLog2 ⌊q⌋.toNat : ℕ) : ℚ) := by push_cast; ring
        _ ≤ ((⌊q⌋.toNat : ℕ) : ℚ) := by exact_mod_cast ha
        _ = ((⌊q⌋ : ℤ) : ℚ) := hcast
        _ ≤ q := Int.floor_le q
    · rw [show ((natLog2 ⌊q⌋.toNat : ℕ) : ℤ) + 1 = ((natLog2 ⌊q⌋.toNat + 1 : ℕ) : ℤ) from by
        push_cast; ring, zpow_natCast]
      calc q < ((⌊q⌋ : ℤ) : ℚ) + 1 := Int.lt_floor_add_one q
        _ = ((⌊q⌋.toNat : ℕ) : ℚ) + 1 := by rw [hcast]
        _ ≤ ((2 ^ (natLog2 ⌊q⌋.toNat + 1) : ℕ) : ℚ) := by exact_mod_cast hb
        _ = (2:ℚ) ^ (natLog2 ⌊q⌋.toNat + 1) := by push_cast; ring
  · have hq1 : q < 1 := not_le.mp h1
    have hr1 : (1:ℚ) < 1 / q := by
      rw [lt_div_iff₀ hq]; linarith
    have hfl : (1:ℤ) ≤ ⌊1 / q⌋ := Int.le_floor.mpr (by exact_mod_cast hr1.le)
    have hn1 : 1 ≤ ⌊1 / q⌋.toNat := by omega
    obtain ⟨ha, hb⟩ := natLog2_spec ⌊1 / q⌋.toNat hn1
    have hcast : ((⌊1 / q⌋.toNat : ℕ) : ℚ) = ((⌊1 / q⌋ : ℤ) : ℚ) := by
      exact_mod_cast congrArg (fun z : ℤ => (z : ℚ)) (Int.toNat_of_nonneg (by omega))
    set t := natLog2 ⌊1 / q⌋.toNat with ht
    have hup : q ≤ (2:ℚ) ^ (-(t : ℤ)) := by
      have h2t : ((2 ^ t : ℕ) : ℚ) ≤ 1 / q := by
        calc ((2 ^ t : ℕ) : ℚ) ≤ ((⌊1 / q⌋.toNat : ℕ) : ℚ) := by exact_mod_cast ha
          _ = ((⌊1 / q⌋ : ℤ) : ℚ) := hcast
          _ ≤ 1 / q := Int.floor_le _
      have hmul : ((2 ^ t : ℕ) : ℚ) * q ≤ 1 := (le_div_iff₀ hq).mp h2t
      rw [zpow_neg, zpow_natCast, ← one_div, le_div_iff₀ (by positivity : (0:ℚ) < 2 ^ t)]
      calc q * 2 ^ t = ((2 ^ t : ℕ) : ℚ) * q := by push_cast; ring
        _ ≤ 1 := hmul
    have hlow : (2:ℚ) ^ (-(t : ℤ) - 1) < q := by
      have hbq : 1 / q < ((2 ^ (t + 1) : ℕ) : ℚ) := by
        calc 1 / q < ((⌊1 / q⌋ : ℤ) : ℚ) + 1 := Int.lt_floor_add_one _
          _ = ((⌊1 / q⌋.toNat : ℕ) : ℚ) + 1 := by rw [hcast]
          _ ≤ ((2 ^ (t + 1) : ℕ) : ℚ) := by exact_mod_cast hb
      have hmul : 1 < ((2 ^ (t + 1) : ℕ) : ℚ) * q := (div_lt_iff₀ hq).mp hbq
      rw [show (-(t : ℤ) - 1) = -((t + 1 : ℕ) : ℤ) from by push_cast; ring,
        zpow_neg, zpow_natCast, ← one_div, div_lt_iff₀ (by positivity : (0:ℚ) < 2 ^ (t + 1))]
      calc 1 < ((2 ^ (t + 1) : ℕ) : ℚ) * q := hmul
        _ = q * 2 ^ (t + 1) := by push_cast; ring
    simp only [flog2, if_neg h1, ← ht]
    by_cases h2 : (2 : ℚ) ^ (-(t : ℤ)) ≤ q
    · rw [if_pos h2]
      refine ⟨h2, ?_⟩
      calc q ≤ (2:ℚ) ^ (-(t : ℤ)) := hup
        _ < (2:ℚ) ^ (-(t : ℤ) + 1) :=
          (zpow_lt_zpow_iff_right₀ (by norm_num : (1:ℚ) < 2)).mpr (by omega)
    · rw [if_neg h2]
      refine ⟨hlow.le, ?_⟩
      rw [show (-(t : ℤ) - 1 + 1) = -(t : ℤ) from by ring]
      exact not_le.mp h2

lemma flog2_eq (q : ℚ) (s : ℤ) (h1 : (2:ℚ) ^ s ≤ q) (h2 : q < 2 ^ (s + 1)) :
    flog2 q = s := by
  have hq : 0 < q := lt_of_lt_of_le (zpow_pos (by norm_num) s) h1
  obtain ⟨ha, hb⟩ := flog2_spec q hq
  have hlt1 : flog2 q < s + 1 :=
    (zpow_lt_zpow_iff_right₀ (by norm_num : (1:ℚ) < 2)).mp (lt_of_le_of_lt ha h2)
  have hlt2 : s < flog2 q + 1 :=
    (zpow_lt_zpow_iff_right₀ (by norm_num : (1:ℚ) < 2)).mp (lt_of_le_of_lt h1 hb)
  omega

/-- Round a rational to the nearest integer, ties to even — the rounding
of IEEE 754 round-to-nearest-even once the value is scaled to the mantissa
grid. -/
def roundHalfEven (x : ℚ) : ℤ :=
  if x - ⌊x⌋ < 1 / 2 then ⌊x⌋
  else if 1 / 2 < x - ⌊x⌋ then ⌊x⌋ + 1
  else if ⌊x⌋ % 2 = 0 then ⌊x⌋ else ⌊x⌋ + 1

lemma rhe_floor_le (x : ℚ) : ⌊x⌋ ≤ roundHalfEven x := by
  unfold roundHalfEven
  split_ifs <;> omega

lemma rhe_le_floor_succ (x : ℚ) : roundHalfEven x ≤ ⌊x⌋ + 1 := by
  unfold roundHalfEven
  split_ifs <;> omega

lemma rhe_mono {x y : ℚ} (h : x ≤ y) : roundHalfEven x ≤ roundHalfEven y := by
  by_cases hf : ⌊x⌋ = ⌊y⌋
  · have hxy : x - (⌊y⌋ : ℚ) ≤ y - (⌊y⌋ : ℚ) := by linarith
    unfold roundHalfEven
    rw [hf]
    split_ifs <;> first | omega | linarith
  · have hlt : ⌊x⌋ + 1 ≤ ⌊y⌋ := by
      have := Int.floor_le_floor h
      omega
    calc roundHalfEven x ≤ ⌊x⌋ + 1 := rhe_le_floor_succ x
      _ ≤ ⌊y⌋ := hlt
      _ ≤ roundHalfEven y := rhe_floor_le y

lemma rhe_eq_of_lt_half (x : ℚ) (n : ℤ) (h1 : (n : ℚ) ≤ x) (h2 : x < n + 1 / 2) :
    roundHalfEven x = n := by
  have hfl : ⌊x⌋ = n := by
    rw [Int.floor_eq_iff]
    constructor
    · exact h1
    · linarith
  unfold roundHalfEven
  rw [hfl, if_pos (by linarith)]

/-- Round a positive rational to the nearest binary64 value: scale into
the 53-bit mantissa range `[2^52, 2^53)`, round to nearest (ties to even),
and scale back.  The exponent is unbounded — no overflow or subnormal
handling — which coincides with IEEE 754 binary64 at every magnitude this
program can produce. -/
def roundPos (q : ℚ) : ℚ :=
  (roundHalfEven (q * 2 ^ ((52 : ℤ) - flog2 q)) : ℚ) * 2 ^ (flog2 q - 52)

/-- Correctly rounded binary64 value of a rational, the rounding applied
by CPython to the result of every float operation. -/
def roundQ (q : ℚ) : ℚ :=
  if 0 < q then roundPos q else if q < 0 then -roundPos (-q) else 0

lemma two_zpow_mul (a b : ℤ) : (2:ℚ) ^ a * 2 ^ b = 2 ^ (a + b) :=
  (zpow_add₀ (by norm_num : (2:ℚ) ≠ 0) a b).symm

lemma intPow_cast_eq_zpow (n : ℕ) : (((2:ℤ) ^ n : ℤ) : ℚ) = (2:ℚ) ^ (n : ℤ) := by
  rw [zpow_natCast]
  push_cast
  ring

lemma roundPos_le_pow {q : ℚ} (hq : 0 < q) :
    roundPos q ≤ (2 : ℚ) ^ (flog2 q + 1) := by
  obtain ⟨h1, h2⟩ := flog2_spec q hq
  have hx : q * 2 ^ ((52 : ℤ) - flog2 q) < 2 ^ ((53 : ℕ) : ℤ) := by
    calc q * 2 ^ ((52 : ℤ) - flog2 q)
        < 2 ^ (flog2 q + 1) * 2 ^ ((52 : ℤ) - flog2 q) :=
          mul_lt_mul_of_pos_right h2 (zpow_pos (by norm_num) _)
      _ = 2 ^ ((53 : ℕ) : ℤ) := by
          rw [two_zpow_mul, show flog2 q + 1 + ((52 : ℤ) - flog2 q) = ((53 : ℕ) : ℤ)
            from by push_cast; ring]
  have hfloor : ⌊q * 2 ^ ((52 : ℤ) - flog2 q)⌋ < (2 : ℤ) ^ (53 : ℕ) := by
    rw [Int.floor_lt, intPow_cast_eq_zpow]
    exact hx
  have hrhe : ((roundHalfEven (q * 2 ^ ((52 : ℤ) - flog2 q)) : ℤ) : ℚ) ≤
      (2 : ℚ) ^ ((53 : ℕ) : ℤ) := by
    rw [← intPow_cast_eq_zpow]
    have h3 := rhe_le_floor_succ (q * 2 ^ ((52 : ℤ) - flog2 q))
    exact_mod_cast by omega
  calc roundPos q
      = (roundHalfEven (q * 2 ^ ((52 : ℤ) - flog2 q)) : ℚ) * 2 ^ (flog2 q - 52) := rfl
    _ ≤ (2 : ℚ) ^ ((53 : ℕ) : ℤ) * 2 ^ (flog2 q - 52) :=
        mul_le_mul_of_nonneg_right hrhe (zpow_pos (by norm_num : (0:ℚ) < 2) _).le
    _ = 2 ^ (flog2 q + 1) := by
        rw [two_zpow_mul, show ((53 : ℕ) : ℤ) + (flog2 q - 52) = flog2 q + 1
          from by push_cast; ring]

lemma pow_le_roundPos {q : ℚ} (hq : 0 < q) :
    (2 : ℚ) ^ flog2 q ≤ roundPos q := by
  obtain ⟨h1, h2⟩ := flog2_spec q hq
  have hx : (2 : ℚ) ^ ((52 : ℕ) : ℤ) ≤ q * 2 ^ ((52 : ℤ) - flog2 q) := by
    calc (2:ℚ) ^ ((52 : ℕ) : ℤ)
        = 2 ^ flog2 q * 2 ^ ((52 : ℤ) - flog2 q) := by
          rw [two_zpow_mul, show flog2 q + ((52 : ℤ) - flog2 q) = ((52 : ℕ) : ℤ)
            from by push_cast; ring]
      _ ≤ q * 2 ^ ((52 : ℤ) - flog2 q) :=
          mul_le_mul_of_nonneg_right h1 (zpow_pos (by norm_num) _).le
  have hfloor : (2 : ℤ) ^ (52 : ℕ) ≤ ⌊q * 2 ^ ((52 : ℤ) - flog2 q)⌋ := by
    rw [Int.le_floor, intPow_cast_eq_zpow]
    exact hx
  have hrhe : (2 : ℚ) ^ ((52 : ℕ) : ℤ) ≤
      ((roundHalfEven (q * 2 ^ ((52 : ℤ) - flog2 q)) : ℤ) : ℚ) := by
    rw [← intPow_cast_eq_zpow]
    have h3 := rhe_floor_le (q * 2 ^ ((52 : ℤ) - flog2 q))
    exact_mod_cast by omega
  calc (2 : ℚ) ^ flog2 q
      = (2 : ℚ) ^ ((52 : ℕ) : ℤ) * 2 ^ (flog2 q - 52) := by
        rw [two_zpow_mul, show ((52 : ℕ) : ℤ) + (flog2 q - 52) = flog2 q
          from by push_cast; ring]
    _ ≤ (roundHalfEven (q * 2 ^ ((52 : ℤ) - flog2 q)) : ℚ) * 2 ^ (flog2 q - 52) :=
        mul_le_mul_of_nonneg_right hrhe (zpow_pos (by norm_num : (0:ℚ) < 2) _).le
    _ = roundPos q := rfl

lemma flog2_le_flog2 {q r : ℚ} (hq : 0 < q) (h : q ≤ r) : flog2 q ≤ flog2 r := by
  have hr : 0 < r := lt_of_lt_of_le hq h
  obtain ⟨ha, _⟩ := flog2_spec q hq
  obtain ⟨_, hb⟩ := flog2_spec r hr
  have h3 : (2:ℚ) ^ flog2 q < 2 ^ (flog2 r + 1) := lt_of_le_of_lt (le_trans ha h) hb
  have := (zpow_lt_zpow_iff_right₀ (by norm_num : (1:ℚ) < 2)).mp h3
  omega

lemma roundPos_mono {q r : ℚ} (hq : 0 < q) (h : q ≤ r) :
    roundPos q ≤ roundPos r := by
  have hr : 0 < r := lt_of_lt_of_le hq h
  rcases eq_or_lt_of_le (flog2_le_flog2 hq h) with he | hlt
  · unfold roundPos
    rw [← he]
    apply mul_le_mul_of_nonneg_right _ (zpow_pos (by norm_num : (0:ℚ) < 2) _).le
    exact_mod_cast rhe_mono
      (mul_le_mul_of_nonneg_right h (zpow_pos (by norm_num : (0:ℚ) < 2) _).le)
  · calc roundPos q ≤ 2 ^ (flog2 q + 1) := roundPos_le_pow hq
      _ ≤ 2 ^ flog2 r :=
        (zpow_le_zpow_iff_right₀ (by norm_num : (1:ℚ) < 2)).mpr (by omega)
      _ ≤ roundPos r := pow_le_roundPos hr

lemma roundQ_zero : roundQ 0 = 0 := by
  simp [roundQ]

lemma roundQ_nonneg {q : ℚ} (h : 0 ≤ q) : 0 ≤ roundQ q := by
  unfold roundQ
  split_ifs with h1 h2
  · exact le_of_lt (lt_of_lt_of_le (zpow_pos (by norm_num) _) (pow_le_roundPos h1))
  · linarith
  · exact le_refl 0

lemma roundQ_mono {q r : ℚ} (h0 : 0 ≤ q) (h : q ≤ r) : roundQ q ≤ roundQ r := by
  by_cases hq1 : 0 < q
  · have hr1 : 0 < r := lt_of_lt_of_le hq1 h
    rw [roundQ, if_pos hq1, roundQ, if_pos hr1]
    exact roundPos_mono hq1 h
  · have hq0 : q = 0 := le_antisymm (not_lt.mp hq1) h0
    subst hq0
    rw [roundQ_zero]
    exact roundQ_nonneg h

lemma roundQ_pos_eq {q : ℚ} (hq : 0 < q) : roundQ q = roundPos q := by
  rw [roundQ, if_pos hq]

lemma roundQ_one : roundQ 1 = 1 := by
  rw [roundQ_pos_eq (by norm_num)]
  have hs : flog2 1 = 0 := flog2_eq 1 0 (by norm_num) (by norm_num)
  have hm : roundHalfEven ((1 : ℚ) * 2 ^ ((52 : ℤ) - 0)) = 2 ^ 52 := by
    rw [show ((52 : ℤ) - 0) = ((52 : ℕ) : ℤ) from by norm_num, one_mul, zpow_natCast]
    apply rhe_eq_of_lt_half
    · push_cast
      norm_num
    · push_cast
      norm_num
  rw [roundPos, hs, hm]
  rw [show ((0 : ℤ) - 52) = -((52 : ℕ) : ℤ) from by norm_num, zpow_neg, zpow_natCast]
  push_cast
  norm_num

lemma roundQ_hundred : roundQ 100 = 100 := by
  rw [roundQ_pos_eq (by norm_num)]
  have hs : flog2 100 = 6 :=
    flog2_eq 100 6 (by norm_num) (by norm_num)
  have hm : roundHalfEven ((100 : ℚ) * 2 ^ ((52 : ℤ) - 6)) = 100 * 2 ^ 46 := by
    rw [show ((52 : ℤ) - 6) = ((46 : ℕ) : ℤ) from by norm_num, zpow_natCast]
    apply rhe_eq_of_lt_half
    · push_cast
      norm_num
    · push_cast
      norm_num
  rw [roundPos, hs, hm]
  rw [show ((6 : ℤ) - 52) = -((46 : ℕ) : ℤ) from by norm_num, zpow_neg, zpow_natCast]
  push_cast
  have h46 : ((2:ℚ) ^ (46 : ℕ)) = 70368744177664 := by norm_num
  rw [h46]
  norm_num

/-- Exact embedding of line 158 of `analysis_queue.py`,
`int((current_item / total_items) * 100)`, under CPython float semantics:
true division of two ints yields the correctly rounded binary64 quotient,
the multiplication by the exactly representable `100` is again correctly
rounded, and `int()` truncates (equals floor here since the value is
nonnegative). -/
def progressValue (i total : ℕ) : ℕ :=
  (⌊roundQ (roundQ ((i : ℚ) / (total : ℚ)) * 100)⌋).toNat

lemma progressValue_mono (total : ℕ) {i j : ℕ} (h : i ≤ j) :
    progressValue i total ≤ progressValue j total := by
  unfold progressValue
  apply Int.toNat_le_toNat
  apply Int.floor_le_floor
  apply roundQ_mono (mul_nonneg (roundQ_nonneg (by positivity)) (by norm_num))
  apply mul_le_mul_of_nonneg_right _ (by norm_num : (0:ℚ) ≤ 100)
  apply roundQ_mono (by positivity)
  rcases Nat.eq_zero_or_pos total with h0 | hpos
  · subst h0
    norm_num
  · have hc : (0:ℚ) < (total : ℚ) := by exact_mod_cast hpos
    exact (div_le_div_iff_of_pos_right hc).mpr (by exact_mod_cast h)

lemma progressValue_le_100 {i total : ℕ} (h : i ≤ total) (ht : 0 < total) :
    progressValue i total ≤ 100 := by
  unfold progressValue
  have hc : (0:ℚ) < (total : ℚ) := by exact_mod_cast ht
  have hd1 : roundQ ((i : ℚ) / (total : ℚ)) ≤ 1 := by
    rw [← roundQ_one]
    apply roundQ_mono (by positivity)
    rw [div_le_one hc]
    exact_mod_cast h
  have hstep : roundQ ((i : ℚ) / (total : ℚ)) * 100 ≤ 100 := by
    nlinarith [roundQ_nonneg (show (0:ℚ) ≤ (i : ℚ) / (total : ℚ) by positivity)]
  have hd2 : roundQ (roundQ ((i : ℚ) / (total : ℚ)) * 100) ≤ 100 := by
    calc roundQ (roundQ ((i : ℚ) / (total : ℚ)) * 100)
        ≤ roundQ 100 :=
          roundQ_mono (mul_nonneg (roundQ_nonneg (by positivity)) (by norm_num)) hstep
      _ = 100 := roundQ_hundred
  have hfl : ⌊roundQ (roundQ ((i : ℚ) / (total : ℚ)) * 100)⌋ ≤ 100 := by
    have := Int.floor_le_floor hd2
    simpa using this
  omega

lemma roundQ_29_50 : roundQ ((29 : ℚ) / 50) =
    5224175567749775 * ((2 : ℚ) ^ (53 : ℕ))⁻¹ := by
  have e1 : flog2 ((29 : ℚ) / 50) = -1 :=
    flog2_eq _ _ (by norm_num) (by norm_num)
  have e2 : roundHalfEven ((29 : ℚ) / 50 * 2 ^ ((52 : ℤ) - -1)) =
      5224175567749775 := by
    rw [show ((52 : ℤ) - -1) = ((53 : ℕ) : ℤ) from by norm_num, zpow_natCast]
    apply rhe_eq_of_lt_half
    · push_cast
      norm_num
    · push_cast
      norm_num
  rw [roundQ_pos_eq (by norm_num), roundPos, e1, e2,
    show ((-1 : ℤ) - 52) = -((53 : ℕ) : ℤ) from by norm_num, zpow_neg, zpow_natCast]
  push_cast
  ring

lemma roundQ_v29 : roundQ (roundQ ((29 : ℚ) / 50) * 100) =
    8162774324609023 * ((2 : ℚ) ^ (47 : ℕ))⁻¹ := by
  have hv : roundQ ((29 : ℚ) / 50) * 100 =
      522417556774977500 * ((2 : ℚ) ^ (53 : ℕ))⁻¹ := by
    rw [roundQ_29_50]
    ring
  rw [hv]
  have e4 : flog2 ((522417556774977500 : ℚ) * ((2 : ℚ) ^ (53 : ℕ))⁻¹) = 5 :=
    flog2_eq _ _ (by norm_num) (by norm_num)
  have e5 : roundHalfEven ((522417556774977500 : ℚ) * ((2 : ℚ) ^ (53 : ℕ))⁻¹ *
      2 ^ ((52 : ℤ) - 5)) = 8162774324609023 := by
    have harg : (522417556774977500 : ℚ) * ((2 : ℚ) ^ (53 : ℕ))⁻¹ *
        2 ^ ((52 : ℤ) - 5) = 522417556774977500 * ((2 : ℚ) ^ (6 : ℕ))⁻¹ := by
      rw [show ((52 : ℤ) - 5) = ((47 : ℕ) : ℤ) from by norm_num, zpow_natCast]
      norm_num
    rw [harg]
    apply rhe_eq_of_lt_half
    · push_cast
      norm_num
    · push_cast
      norm_num
  rw [roundQ_pos_eq (by norm_num), roundPos, e4, e5,
    show ((5 : ℤ) - 52) = -((47 : ℕ) : ℤ) from by norm_num, zpow_neg, zpow_natCast]
  push_cast
  ring

/-- The binary64 arithmetic loses one unit against exact arithmetic at
`current_item = 29`, `total = 50`: `29 / 50` rounds below `0.58`, the
product with `100` lands just below `58`, and truncation gives `57`,
while the exact floor is `58` (CPython: `int((29/50)*100) == 57`). -/
lemma progressValue_29_50 : progressValue 29 50 = 57 := by
  unfold progressValue
  have hcast : ((29 : ℕ) : ℚ) / ((50 : ℕ) : ℚ) = (29 : ℚ) / 50 := by norm_num
  rw [hcast, roundQ_v29]
  have hfl : ⌊(8162774324609023 : ℚ) * ((2 : ℚ) ^ (47 : ℕ))⁻¹⌋ = 57 := by
    rw [Int.floor_eq_iff]
    constructor
    · push_cast
      norm_num
    · push_cast
      norm_num
  rw [hfl]
  rfl

/-- Embedding of the unit loop body (lines 154–201).  For the unit with
zero-based index `i` (the running `current_item`, incremented right after
the broadcast at line 162): first broadcast
`int((current_item / total_items) * 100)` — the binary64 value
`progressValue i total` — then run the fallible part of the `try` block:
the AI call plus the row insert/commit, modelled by the oracle `ev`.  On
`ok` the row is saved; on an exception the `except ... continue`
(lines 197–201) skips the row and moves on.  Returns the emitted trace and
the saved rows. -/
def runUnits (ev : ChecklistItemR → DocumentR → Except String AIResult)
    (aid total : Nat) :
    List (ChecklistItemR × DocumentR) → Nat →
      List TraceEntry × List AnalysisResultRow
  | [], _ => ([], [])
  | u :: rest, i =>
    let pe := TraceEntry.update aid "processing"
      (some (progressValue i total)) none
    match ev u.1 u.2 with
    | Except.ok r =>
      let tl := runUnits ev aid total rest (i + 1)
      (pe :: TraceEntry.evalUnit u.1.id u.2.id
          :: TraceEntry.saveResult (mkRow aid u.1 u.2 r) :: tl.1,
        mkRow aid u.1 u.2 r :: tl.2)
    | Except.error _ =>
      let tl := runUnits ev aid total rest (i + 1)
      (pe :: TraceEntry.evalUnit u.1.id u.2.id :: tl.1, tl.2)

/-- Outcome of one `process_analysis` run: the trace of observable actions,
the persisted result rows, and the final status committed for the analysis
(`none` when the analysis row was not found and nothing happened). -/
structure RunResult where
  trace : List TraceEntry
  rows : List AnalysisResultRow
  finalStatus : Option String
  deriving Repr, DecidableEq

/-- Embedding of `AnalysisQueue.process_analysis` (lines 87–209).  Load the
analysis (abort silently if missing); broadcast `processing` at 0; resolve
documents and checklist, failing the job with
"Missing documents or checklist" when either is empty/missing
(lines 134–141); resolve the checklist items; run the unit loop; finally
commit `completed` and broadcast it at 100 (lines 203–208). -/
def process_analysis (db : DB)
    (ev : ChecklistItemR → DocumentR → Except String AIResult)
    (aid : Nat) : RunResult :=
  match db.analyses.find? (fun x => x.id == aid) with
  | none => ⟨[], [], none⟩
  | some a =>
    let startEv := TraceEntry.update aid "processing" (some 0) none
    let docs := queryDocuments db aid
    match queryChecklist db a.checklist_id with
    | none =>
      ⟨[startEv, TraceEntry.update aid "failed" none
          (some "Missing documents or checklist")], [], some "failed"⟩
    | some cl =>
      if docs.isEmpty then
        ⟨[startEv, TraceEntry.update aid "failed" none
            (some "Missing documents or checklist")], [], some "failed"⟩
      else
        let items := queryChecklistItems db cl.id
        let total := items.length * docs.length
        let r := runUnits ev aid total (units items docs) 0
        ⟨startEv :: r.1 ++
            [TraceEntry.update aid "completed" (some 100) none],
          r.2, some "completed"⟩

/-- Progress value carried by a broadcast, if any. -/
def progressOf : TraceEntry → Option Nat
  | TraceEntry.update _ _ p _ => p
  | _ => none

/-- The sequence of progress values broadcast during a run. -/
def progressList (t : List TraceEntry) : List Nat :=
  t.filterMap progressOf

/-- Whether a trace entry is a row save. -/
def isSave : TraceEntry → Bool
  | TraceEntry.saveResult _ => true
  | _ => false

/-- The trace restricted to broadcasts and unit evaluations. -/
def coreTrace (t : List TraceEntry) : List TraceEntry :=
  t.filter (fun e => !(isSave e))

/-- The sequence of units evaluated during a run, as
(checklist item id, document id) pairs in evaluation order. -/
def evalUnitsOf (t : List TraceEntry) : List (Nat × Nat) :=
  t.filterMap (fun e =>
    match e with
    | TraceEntry.evalUnit i d => some (i, d)
    | _ => none)

/-- Whether the fallible part of a unit's `try` block succeeds for unit
`u`. -/
def evalOk (ev : ChecklistItemR → DocumentR → Except String AIResult)
    (u : ChecklistItemR × DocumentR) : Bool :=
  match ev u.1 u.2 with
  | Except.ok _ => true
  | Except.error _ => false

lemma units_length (items : List ChecklistItemR) (docs : List DocumentR) :
    (units items docs).length = items.length * docs.length := by
  unfold units
  induction items with
  | nil => simp
  | cons it rest ih =>
    simp only [List.flatMap_cons, List.length_append, List.length_map,
      List.length_cons, ih, Nat.succ_mul]
    omega

lemma runUnits_core (ev : ChecklistItemR → DocumentR → Except String AIResult)
    (aid total : Nat) (us : List (ChecklistItemR × DocumentR)) : ∀ i : Nat,
    coreTrace (runUnits ev aid total us i).1 =
      ((List.range' i us.length).zip us).flatMap (fun p =>
        [TraceEntry.update aid "processing"
          (some (progressValue p.1 total)) none,
         TraceEntry.evalUnit p.2.1.id p.2.2.id]) := by
  induction us with
  | nil => intro i; simp [runUnits, coreTrace]
  | cons u rest ih =>
    intro i
    cases hev : ev u.1 u.2 with
    | ok r =>
      simp [runUnits, coreTrace, hev, List.range'_succ, isSave,
        ← ih (i + 1)]
    | error e =>
      simp [runUnits, coreTrace, hev, List.range'_succ, isSave,
        ← ih (i + 1)]

lemma runUnits_progress
    (ev : ChecklistItemR → DocumentR → Except String AIResult)
    (aid total : Nat) (us : List (ChecklistItemR × DocumentR)) : ∀ i : Nat,
    progressList (runUnits ev aid total us i).1 =
      (List.range' i us.length).map (fun j => progressValue j total) := by
  induction us with
  | nil => intro i; simp [runUnits, progressList]
  | cons u rest ih =>
    intro i
    cases hev : ev u.1 u.2 with
    | ok r =>
      simp [runUnits, progressList, hev, List.range'_succ, progressOf,
        ← ih (i + 1)]
    | error e =>
      simp [runUnits, progressList, hev, List.range'_succ, progressOf,
        ← ih (i + 1)]

lemma runUnits_rows (ev : ChecklistItemR → DocumentR → Except String AIResult)
    (aid total : Nat) (us : List (ChecklistItemR × DocumentR)) : ∀ i : Nat,
    (runUnits ev aid total us i).2 =
      us.filterMap (fun u =>
        match ev u.1 u.2 with
        | Except.ok r => some (mkRow aid u.1 u.2 r)
        | Except.error _ => none) := by
  induction us with
  | nil => intro i; simp [runUnits]
  | cons u rest ih =>
    intro i
    cases hev : ev u.1 u.2 with
    | ok r => simp [runUnits, hev, List.filterMap_cons, ← ih (i + 1)]
    | error e => simp [runUnits, hev, List.filterMap_cons, ← ih (i + 1)]

lemma runUnits_rows_length
    (ev : ChecklistItemR → DocumentR → Except String AIResult)
    (aid total : Nat) (us : List (ChecklistItemR × DocumentR)) : ∀ i : Nat,
    (runUnits ev aid total us i).2.length =
      (us.filter (fun u => evalOk ev u)).length := by
  induction us with
  | nil => intro i; simp [runUnits]
  | cons u rest ih =>
    intro i
    cases hev : ev u.1 u.2 with
    | ok r =>
      have hok : evalOk ev u = true := by simp [evalOk, hev]
      simp [runUnits, hev, List.filter_cons, hok, ih (i + 1)]
    | error e =>
      have hko : evalOk ev u = false := by simp [evalOk, hev]
      simp [runUnits, hev, List.filter_cons, hko, ih (i + 1)]

lemma runUnits_evalUnits
    (ev : ChecklistItemR → DocumentR → Except String AIResult)
    (aid total : Nat) (us : List (ChecklistItemR × DocumentR)) : ∀ i : Nat,
    evalUnitsOf (runUnits ev aid total us i).1 =
      us.map (fun u => (u.1.id, u.2.id)) := by
  induction us with
  | nil => intro i; simp [runUnits, evalUnitsOf]
  | cons u rest ih =>
    intro i
    cases hev : ev u.1 u.2 with
    | ok r => simp [runUnits, evalUnitsOf, hev, ← ih (i + 1)]
    | error e => simp [runUnits, evalUnitsOf, hev, ← ih (i + 1)]

lemma isEmpty_false_of_ne_nil {α : Type _} {l : List α} (h : l ≠ []) :
    l.isEmpty = false := by
  cases l with
  | nil => exact absurd rfl h
  | cons a t => rfl

/-- The claim `C10`: when the analysis row is found, the document set and
the checklist both resolve, but the checklist has zero items (total units
= 0), the run attempts no unit, saves no result row, and terminates with
status `completed`, broadcasting exactly `processing` at 0 and then
`completed` at 100.  In particular the per-unit progress expression — the
only division by the total — is never evaluated, because the unit loop body
never runs. -/
theorem empty_checklist_completes (db : DB)
    (ev : ChecklistItemR → DocumentR → Except String AIResult)
    (aid : Nat) (a : AnalysisR) (cl : ChecklistR)
    (ha : db.analyses.find? (fun x => x.id == aid) = some a)
    (hc : queryChecklist db a.checklist_id = some cl)
    (hd : queryDocuments db aid ≠ [])
    (hi : queryChecklistItems db cl.id = []) :
    process_analysis db ev aid =
      ⟨[TraceEntry.update aid "processing" (some 0) none,
        TraceEntry.update aid "completed" (some 100) none], [],
        some "completed"⟩ := by
  simp only [process_analysis, ha, hc, isEmpty_false_of_ne_nil hd, hi]
  simp [units, runUnits]

lemma coreTrace_cons_update (aid : Nat) (st : String) (p : Option Nat)
    (er : Option String) (t : List TraceEntry) :
    coreTrace (TraceEntry.update aid st p er :: t) =
      TraceEntry.update aid st p er :: coreTrace t := by
  simp [coreTrace, isSave]

lemma coreTrace_append (t₁ t₂ : List TraceEntry) :
    coreTrace (t₁ ++ t₂) = coreTrace t₁ ++ coreTrace t₂ := by
  simp [coreTrace]

lemma progressList_cons_some (aid : Nat) (st : String) (n : Nat)
    (er : Option String) (t : List TraceEntry) :
    progressList (TraceEntry.update aid st (some n) er :: t) =
      n :: progressList t := by
  simp [progressList, progressOf]

lemma progressList_append (t₁ t₂ : List TraceEntry) :
    progressList (t₁ ++ t₂) = progressList t₁ ++ progressList t₂ := by
  simp [progressList]

lemma evalUnitsOf_cons_update (aid : Nat) (st : String) (p : Option Nat)
    (er : Option String) (t : List TraceEntry) :
    evalUnitsOf (TraceEntry.update aid st p er :: t) = evalUnitsOf t := by
  simp [evalUnitsOf]

lemma evalUnitsOf_append (t₁ t₂ : List TraceEntry) :
    evalUnitsOf (t₁ ++ t₂) = evalUnitsOf t₁ ++ evalUnitsOf t₂ := by
  simp [evalUnitsOf]

/-- The amended claim `C3`: for a job whose setup succeeds with
`total = |items| * |docs| > 0` units, the non-save trace is exactly one
`processing` broadcast at 0, then for each unit index `i` a `processing`
broadcast carrying `int((i / total) * 100)` evaluated in binary64 —
`progressValue i total`, which can fall below the exact
`floor(i / total * 100)` by one (see the counterexample) — immediately
before that unit's evaluation, and a final `completed` broadcast carrying
exactly 100; the sequence of all broadcast progress values is
non-decreasing. -/
theorem progress_broadcasts (db : DB)
    (ev : ChecklistItemR → DocumentR → Except String AIResult)
    (aid : Nat) (a : AnalysisR) (cl : ChecklistR)
    (ha : db.analyses.find? (fun x => x.id == aid) = some a)
    (hc : queryChecklist db a.checklist_id = some cl)
    (hd : queryDocuments db aid ≠ [])
    (hi : queryChecklistItems db cl.id ≠ []) :
    coreTrace (process_analysis db ev aid).trace =
      TraceEntry.update aid "processing" (some 0) none ::
      ((List.range' 0 ((queryChecklistItems db cl.id).length *
            (queryDocuments db aid).length)).zip
          (units (queryChecklistItems db cl.id)
            (queryDocuments db aid))).flatMap (fun p =>
        [TraceEntry.update aid "processing"
            (some (progressValue p.1 ((queryChecklistItems db cl.id).length *
              (queryDocuments db aid).length))) none,
         TraceEntry.evalUnit p.2.1.id p.2.2.id]) ++
      [TraceEntry.update aid "completed" (some 100) none] ∧
    List.Chain' (· ≤ ·) (progressList (process_analysis db ev aid).trace) ∧
    (progressList (process_analysis db ev aid).trace).getLast? =
      some 100 := by
  have hde := isEmpty_false_of_ne_nil hd
  have htot := units_length (queryChecklistItems db cl.id)
    (queryDocuments db aid)
  have htpos : 0 < (queryChecklistItems db cl.id).length *
      (queryDocuments db aid).length :=
    Nat.mul_pos (List.length_pos.mpr hi) (List.length_pos.mpr hd)
  have hpl : progressList (process_analysis db ev aid).trace =
      0 :: (List.range' 0 ((queryChecklistItems db cl.id).length *
          (queryDocuments db aid).length)).map
        (fun j => progressValue j ((queryChecklistItems db cl.id).length *
          (queryDocuments db aid).length)) ++ [100] := by
    simp only [process_analysis, ha, hc, hde, Bool.false_eq_true, if_false]
    rw [progressList_append, progressList_cons_some, runUnits_progress,
      htot, progressList_cons_some]
    simp [progressList]
  refine ⟨?_, ?_, ?_⟩
  · simp only [process_analysis, ha, hc, hde, Bool.false_eq_true, if_false]
    rw [coreTrace_append, coreTrace_cons_update, runUnits_core, htot,
      coreTrace_cons_update]
    simp [coreTrace]
  · rw [hpl]
    apply List.Pairwise.chain'
    refine List.pairwise_cons.mpr ⟨fun b _ => Nat.zero_le b, ?_⟩
    refine List.pairwise_append.mpr ⟨?_, ?_, ?_⟩
    · exact List.Pairwise.map _
        (fun x y h => progressValue_mono _ h.le)
        (List.pairwise_lt_range' 0 _)
    · simp
    · intro x hx b hb
      simp only [List.mem_singleton] at hb
      subst hb
      obtain ⟨j, hj, rfl⟩ := List.mem_map.mp hx
      have hjlt : j < (queryChecklistItems db cl.id).length *
          (queryDocuments db aid).length := by
        have := List.mem_range'_1.mp hj
        omega
      exact progressValue_le_100 hjlt.le htpos
  · rw [hpl, List.getLast?_concat]

/-- The claim `C5`: when setup succeeds, the persisted rows are exactly one
row per unit whose fallible block succeeded, in unit order — a failing unit
is skipped and processing continues; the row count never exceeds
`|items| * |docs|`, with equality precisely when no unit failed; and the
job still terminates with status `completed`. -/
theorem rows_bound (db : DB)
    (ev : ChecklistItemR → DocumentR → Except String AIResult)
    (aid : Nat) (a : AnalysisR) (cl : ChecklistR)
    (ha : db.analyses.find? (fun x => x.id == aid) = some a)
    (hc : queryChecklist db a.checklist_id = some cl)
    (hd : queryDocuments db aid ≠ []) :
    (process_analysis db ev aid).rows =
      (units (queryChecklistItems db cl.id)
          (queryDocuments db aid)).filterMap (fun u =>
        match ev u.1 u.2 with
        | Except.ok r => some (mkRow aid u.1 u.2 r)
        | Except.error _ => none) ∧
    (process_analysis db ev aid).rows.length ≤
      (queryChecklistItems db cl.id).length *
        (queryDocuments db aid).length ∧
    ((process_analysis db ev aid).rows.length =
        (queryChecklistItems db cl.id).length *
          (queryDocuments db aid).length ↔
      ∀ u ∈ units (queryChecklistItems db cl.id) (queryDocuments db aid),
        evalOk ev u = true) ∧
    (process_analysis db ev aid).finalStatus = some "completed" := by
  have hde := isEmpty_false_of_ne_nil hd
  have htot := units_length (queryChecklistItems db cl.id)
    (queryDocuments db aid)
  have hlen : (process_analysis db ev aid).rows.length =
      ((units (queryChecklistItems db cl.id)
          (queryDocuments db aid)).filter (fun u => evalOk ev u)).length := by
    simp only [process_analysis, ha, hc, hde, Bool.false_eq_true, if_false]
    rw [runUnits_rows_length]
  refine ⟨?_, ?_, ?_, ?_⟩
  · simp only [process_analysis, ha, hc, hde, Bool.false_eq_true, if_false]
    rw [runUnits_rows]
  · rw [hlen, ← htot]
    exact List.length_filter_le _ _
  · rw [hlen, ← htot]
    constructor
    · intro h
      exact List.filter_eq_self.mp ((List.filter_sublist _).eq_of_length h)
    · intro h
      exact congrArg List.length (List.filter_eq_self.mpr h)
  · simp only [process_analysis, ha, hc, hde, Bool.false_eq_true, if_false]

/-- The amended claim `C8`: per-job unit processing order is deterministic
and independent of the evaluator: checklist items in the row order of the
`checklist_items` table restricted to the checklist (the query has no
`order_by`, so this is not the display-order sort), and within each item,
documents in the row order of the `documents` table restricted to the
job's document set (the `in_` query, not the association order). -/
theorem unit_order_deterministic (db : DB)
    (ev : ChecklistItemR → DocumentR → Except String AIResult)
    (aid : Nat) (a : AnalysisR) (cl : ChecklistR)
    (ha : db.analyses.find? (fun x => x.id == aid) = some a)
    (hc : queryChecklist db a.checklist_id = some cl)
    (hd : queryDocuments db aid ≠ []) :
    evalUnitsOf (process_analysis db ev aid).trace =
      (queryChecklistItems db cl.id).flatMap (fun it =>
        (queryDocuments db aid).map (fun d => (it.id, d.id))) := by
  have hde := isEmpty_false_of_ne_nil hd
  simp only [process_analysis, ha, hc, hde, Bool.false_eq_true, if_false]
  rw [evalUnitsOf_append, evalUnitsOf_cons_update, runUnits_evalUnits]
  simp [evalUnitsOf, units, List.map_flatMap, Function.comp_def]

/-- A small database with one analysis over one document whose checklist
has no items. -/
def db10 : DB :=
  { analyses := [⟨1, 1, 1, "claude-3.5-sonnet"⟩],
    analysis_documents := [(1, 10)],
    documents := [⟨10, "offer.pdf", "some text"⟩],
    checklists := [⟨1⟩],
    checklist_items := [] }

/-- An evaluator oracle that always fails. -/
def evErr : ChecklistItemR → DocumentR → Except String AIResult :=
  fun _ _ => Except.error "network error"

/-- Witness for `C10`: on `db10` the setup hypotheses hold and the run ends
`completed` at 100 with no unit attempted and no row saved. -/
theorem empty_checklist_completes_witness :
    queryChecklistItems db10 1 = [] ∧ queryDocuments db10 1 ≠ [] ∧
    process_analysis db10 evErr 1 =
      ⟨[TraceEntry.update 1 "processing" (some 0) none,
        TraceEntry.update 1 "completed" (some 100) none], [],
        some "completed"⟩ :=
  ⟨rfl, by decide,
    empty_checklist_completes db10 evErr 1 ⟨1, 1, 1, "claude-3.5-sonnet"⟩
      ⟨1⟩ rfl rfl (by decide) rfl⟩

/-- A database whose checklist-items table holds item 1 (display order 2)
before item 2 (display order 1): the client supplied `order` values that
disagree with creation order, which `create_checklist` stores verbatim. -/
def db8 : DB :=
  { analyses := [⟨1, 1, 1, "claude-3.5-sonnet"⟩],
    analysis_documents := [(1, 10)],
    documents := [⟨10, "tender.pdf", "some text"⟩],
    checklists := [⟨1⟩],
    checklist_items :=
      [⟨1, 1, "question", "created first", 2⟩,
       ⟨2, 1, "condition", "created second", 1⟩] }

/-- Counterexample to `C8` as stated: on `db8` the run evaluates item 1
(display order 2) before item 2 (display order 1), because the items query
has no `order_by` and returns table order; the display orders along the
processing order are `[2, 1]`, which is not ascending. -/
theorem unit_order_counterexample :
    (evalUnitsOf (process_analysis db8 evErr 1).trace).filterMap
        (fun u => (db8.checklist_items.find? (fun it => it.id == u.1)).map
          (fun it => it.order)) = [2, 1] ∧
    ¬ List.Chain' (· ≤ ·) [2, 1] := by
  refine ⟨by decide, ?_⟩
  intro hch
  have := (List.chain'_cons.mp hch).1
  omega

/-- Witness for the amended `C8` on `db8`: the evaluated units follow
table row order, items then documents. -/
theorem unit_order_deterministic_witness :
    queryDocuments db8 1 ≠ [] ∧
    evalUnitsOf (process_analysis db8 evErr 1).trace =
      [(1, 10), (2, 10)] :=
  ⟨by decide, by
    have h := unit_order_deterministic db8 evErr 1
      ⟨1, 1, 1, "claude-3.5-sonnet"⟩ ⟨1⟩ rfl rfl (by decide)
    rw [h]
    decide⟩

/-- A database with 2 checklist items and 3 documents (6 units), matching
the spec scenario. -/
def db5 : DB :=
  { analyses := [⟨1, 1, 1, "claude-3.5-sonnet"⟩],
    analysis_documents := [(1, 21), (1, 22), (1, 23)],
    documents :=
      [⟨21, "a.pdf", "ta"⟩, ⟨22, "b.pdf", "tb"⟩, ⟨23, "c.pdf", "tc"⟩],
    checklists := [⟨1⟩],
    checklist_items :=
      [⟨1, 1, "question", "q", 0⟩, ⟨2, 1, "condition", "c", 1⟩] }

/-- An evaluator oracle that fails exactly on the fourth unit of `db5`
(item 2 against document 21) and succeeds elsewhere. -/
def ev5 : ChecklistItemR → DocumentR → Except String AIResult :=
  fun it d =>
    if it.id = 2 ∧ d.id = 21 then Except.error "rate limit"
    else Except.ok ⟨"yes", some true, 1, "quoted text", [1]⟩

/-- Witness for `C5`, the spec's scenario: 2 items and 3 documents give 6
units; unit 4 fails, the job still ends `completed` and exactly 5 rows are
persisted. -/
theorem rows_bound_witness :
    queryDocuments db5 1 ≠ [] ∧
    (process_analysis db5 ev5 1).rows.length ≤
      (queryChecklistItems db5 1).length * (queryDocuments db5 1).length ∧
    (process_analysis db5 ev5 1).finalStatus = some "completed" ∧
    (process_analysis db5 ev5 1).rows.length = 5 := by
  have h := rows_bound db5 ev5 1 ⟨1, 1, 1, "claude-3.5-sonnet"⟩ ⟨1⟩
    rfl rfl (by decide)
  exact ⟨by decide, h.2.1, h.2.2.2, by decide⟩

/-- A database with 5 checklist items and 10 documents: 50 processing
units, so unit index 29 broadcasts `int((29 / 50) * 100)`. -/
def dbP : DB :=
  { analyses := [⟨1, 1, 1, "claude-3.5-sonnet"⟩],
    analysis_documents :=
      [(1, 31), (1, 32), (1, 33), (1, 34), (1, 35),
       (1, 36), (1, 37), (1, 38), (1, 39), (1, 40)],
    documents :=
      [⟨31, "d1.pdf", "t"⟩, ⟨32, "d2.pdf", "t"⟩, ⟨33, "d3.pdf", "t"⟩,
       ⟨34, "d4.pdf", "t"⟩, ⟨35, "d5.pdf", "t"⟩, ⟨36, "d6.pdf", "t"⟩,
       ⟨37, "d7.pdf", "t"⟩, ⟨38, "d8.pdf", "t"⟩, ⟨39, "d9.pdf", "t"⟩,
       ⟨40, "d10.pdf", "t"⟩],
    checklists := [⟨1⟩],
    checklist_items :=
      [⟨1, 1, "question", "q1", 0⟩, ⟨2, 1, "question", "q2", 1⟩,
       ⟨3, 1, "question", "q3", 2⟩, ⟨4, 1, "question", "q4", 3⟩,
       ⟨5, 1, "question", "q5", 4⟩] }

/-- Counterexample to `C3` as stated: in the 50-unit run on `dbP` the
broadcast before unit 29 carries 57 — binary64 arithmetic rounds
`(29/50) * 100` to just below 58 and `int()` truncates — yet
`floor(completed_count / 50 * 100) = completed_count * 2` is even for
every unit, so 57 equals no unit's exact floor; at unit 29 the exact
floor is 58. -/
theorem progress_floor_counterexample :
    TraceEntry.update 1 "processing" (some 57) none ∈
      (process_analysis dbP evErr 1).trace ∧
    (List.range 50).all (fun i => i * 100 / 50 != 57) = true ∧
    29 * 100 / 50 = 58 := by
  refine ⟨?_, by decide, by decide⟩
  have ha : dbP.analyses.find? (fun x => x.id == 1) =
      some ⟨1, 1, 1, "claude-3.5-sonnet"⟩ := rfl
  have hc : queryChecklist dbP 1 = some (⟨1⟩ : ChecklistR) := rfl
  have hde : (queryDocuments dbP 1).isEmpty = false := by decide
  have htot : (queryChecklistItems dbP 1).length *
      (queryDocuments dbP 1).length = 50 := by decide
  simp only [process_analysis, ha, hc, hde, Bool.false_eq_true, if_false]
  rw [htot]
  apply List.mem_append_left
  apply List.mem_cons_of_mem
  have hmem : TraceEntry.update 1 "processing"
      (some (progressValue 29 50)) none ∈
      coreTrace (runUnits evErr 1 50
        (units (queryChecklistItems dbP 1) (queryDocuments dbP 1)) 0).1 := by
    rw [runUnits_core]
    apply List.mem_flatMap.mpr
    refine ⟨(29, (⟨3, 1, "question", "q3", 2⟩, ⟨40, "d10.pdf", "t"⟩)), ?_, ?_⟩
    · decide
    · exact List.mem_cons_self _ _
  simp only [coreTrace] at hmem
  have hmem2 := List.mem_of_mem_filter hmem
  rw [progressValue_29_50] at hmem2
  exact hmem2

/-- Witness for `C3` on the six-unit run of `db5`: the broadcast progress
sequence is non-decreasing and its last value is 100. -/
theorem progress_broadcasts_witness :
    queryDocuments db5 1 ≠ [] ∧ queryChecklistItems db5 1 ≠ [] ∧
    List.Chain' (· ≤ ·)
      (progressList (process_analysis db5 ev5 1).trace) ∧
    (progressList (process_analysis db5 ev5 1).trace).getLast? =
      some 100 := by
  have h := progress_broadcasts db5 ev5 1 ⟨1, 1, 1, "claude-3.5-sonnet"⟩
    ⟨1⟩ rfl rfl (by decide) (by decide)
  exact ⟨by decide, by decide, h.2.1, h.2.2⟩

/-! ## Page-reference normalization
(`AnalysisResultResponse.convert_page_references` in
`api/routes/analysis.py`, lines 56–80) -/

/-- One raw entry of the stored `page_references` JSON value: a Python
`int`, a `str`, or anything else. -/
inductive PageRef where
  | int (n : Int)
  | str (s : String)
  | other
  deriving Repr, DecidableEq

/-- Python `int` of a non-empty digit string. -/
def digitsToNat (cs : List Char) : Nat :=
  cs.foldl (fun acc c => 10 * acc + (c.toNat - 48)) 0

/-- The value of `re.findall(r"\d+", item)[0]` when a digit occurs:
the first maximal run of digits, read as a number. -/
def firstNumber : List Char → Option Nat
  | [] => none
  | c :: rest =>
    if c.isDigit then
      some (digitsToNat (c :: rest.takeWhile (fun d => d.isDigit)))
    else firstNumber rest

/-- The per-entry branch of `convert_page_references` (lines 65–77):
an `int` passes through, a `str` becomes its first number or 1 when it has
no digit, anything else becomes 1. -/
def convertOne : PageRef → Int
  | PageRef.int n => n
  | PageRef.str s =>
    match firstNumber s.data with
    | some n => (n : Int)
    | none => 1
  | PageRef.other => 1

/-- Embedding of `convert_page_references` (lines 56–80): `if not v` maps
a null/absent or empty value to `[]`; otherwise every entry is converted
in order. -/
def convert_page_references : Option (List PageRef) → List Int
  | none => []
  | some [] => []
  | some l => l.map convertOne

lemma firstNumber_eq_none (cs : List Char)
    (h : ∀ c ∈ cs, c.isDigit = false) : firstNumber cs = none := by
  induction cs with
  | nil => rfl
  | cons c rest ih =>
    have hc := h c (List.mem_cons_self c rest)
    simp only [firstNumber, hc]
    exact ih (fun d hd => h d (List.mem_cons_of_mem c hd))

/-- The claim `C7`: the normalization maps a string entry whose first
number is `n` to `n`, a string entry with no digit to 1, and a null/absent
field to the empty sequence; in particular
`["page 3", "section 2.1", 7]` yields `[3, 2, 7]`, `["no digits"]` yields
`[1]`, and null yields `[]`. -/
theorem page_references_normalized :
    convert_page_references none = [] ∧
    convert_page_references (some [PageRef.str "page 3",
      PageRef.str "section 2.1", PageRef.int 7]) = [3, 2, 7] ∧
    convert_page_references (some [PageRef.str "no digits"]) = [1] ∧
    (∀ (s : String) (n : Nat), firstNumber s.data = some n →
      convertOne (PageRef.str s) = (n : Int)) ∧
    (∀ s : String, (∀ c ∈ s.data, c.isDigit = false) →
      convertOne (PageRef.str s) = 1) := by
  refine ⟨rfl, by decide, by decide, ?_, ?_⟩
  · intro s n h
    simp [convertOne, h]
  · intro s h
    simp [convertOne, firstNumber_eq_none s.data h]

/-- Witness for `C7`: the general string clauses applied to "page 3" and
to the digit-free "no digits". -/
theorem page_references_normalized_witness :
    convertOne (PageRef.str "page 3") = 3 ∧
    convertOne (PageRef.str "no digits") = 1 :=
  ⟨page_references_normalized.2.2.2.1 "page 3" 3 (by decide),
   page_references_normalized.2.2.2.2 "no digits" (by decide)⟩

/-! ## Unit processor error path
(`AIService._analyze_with_claude` in `services/ai_service.py`) -/

/-- The JSON object parsed out of a successful Claude response; each field
may be absent (`result.get` defaults apply).  The confidence score is a
rational, idealizing the Python float. -/
structure ParsedJson where
  answer : Option String
  condition_result : Option Bool
  confidence_score : Option ℚ
  evidence : Option String
  page_references : Option (List Int)
  deriving Repr, DecidableEq

/-- Embedding of `_analyze_with_claude` (lines 49–185 of
`ai_service.py`).  `clientAvailable` is whether `self.anthropic_client`
was initialized (lines 55–62); `call` is the outcome of the whole `try`
block — the API request plus response parsing — whose every failure mode
(network error, rate limit, malformed or non-JSON response) raises and
lands in the `except` clause at lines 176–185, which returns the degraded
payload instead of propagating. -/
def analyze_with_claude (clientAvailable : Bool)
    (call : Except String ParsedJson) : AIResult :=
  if !clientAvailable then
    { answer := "AI service not available: Anthropic API key not configured",
      condition_result := none, confidence_score := 0, evidence := "-",
      page_references := [] }
  else
    match call with
    | Except.ok r =>
      { answer := r.answer.getD "", condition_result := r.condition_result,
        confidence_score := r.confidence_score.getD (1 / 2),
        evidence := r.evidence.getD "",
        page_references := r.page_references.getD [] }
    | Except.error e =>
      { answer := "Unable to analyze due to API error: " ++ e,
        condition_result := none, confidence_score := 0, evidence := "-",
        page_references := [] }

/-- The claim `C4`: whenever the evaluator call raises — whatever the
error — the unit processor returns (rather than propagates) exactly the
degraded payload: null condition result, confidence 0.0, evidence "-",
empty page references, and an answer describing the failure. -/
theorem evaluator_error_degraded (e : String) :
    analyze_with_claude true (Except.error e) =
      { answer := "Unable to analyze due to API error: " ++ e,
        condition_result := none, confidence_score := 0, evidence := "-",
        page_references := [] } ∧
    (analyze_with_claude true (Except.error e)).condition_result = none ∧
    (analyze_with_claude true (Except.error e)).confidence_score = 0 ∧
    (analyze_with_claude true (Except.error e)).evidence = "-" ∧
    (analyze_with_claude true (Except.error e)).page_references = [] := by
  refine ⟨rfl, rfl, rfl, rfl, rfl⟩

/-! ## Notification bus (`WebSocketManager.send_analysis_update` in
`websocket_manager.py`, lines 64–89) -/

/-- One user's send loop (lines 79–85): iterate the user's connections,
attempt the send on each — `fails c = true` means `websocket.send_text`
raises for connection `c` — collecting successful deliveries and the
`dead_connections` set.  An exception on one connection is caught and the
loop continues with the rest. -/
def sendToConns : List Nat → (Nat → Bool) → List Nat × List Nat
  | [], _ => ([], [])
  | c :: rest, fails =>
    let r := sendToConns rest fails
    if fails c then (r.1, c :: r.2) else (c :: r.1, r.2)

/-- Embedding of `send_analysis_update` (lines 64–89): the message is sent
to every connection of every user — a broadcast, with no owner scoping —
and afterwards each user's dead connections are discarded from the active
set (lines 87–89).  Returns the connections that received the message, in
iteration order, and the new active-connection registry. -/
def send_analysis_update (active : List (Nat × List Nat))
    (fails : Nat → Bool) : List Nat × List (Nat × List Nat) :=
  (active.flatMap (fun uc => (sendToConns uc.2 fails).1),
   active.map (fun uc =>
     (uc.1, uc.2.filter (fun c => c ∉ (sendToConns uc.2 fails).2))))

lemma sendToConns_delivered (cs : List Nat) (fails : Nat → Bool) :
    (sendToConns cs fails).1 = cs.filter (fun c => !(fails c)) := by
  induction cs with
  | nil => rfl
  | cons c rest ih =>
    cases hc : fails c <;> simp [sendToConns, hc, List.filter_cons, ih]

lemma sendToConns_dead (cs : List Nat) (fails : Nat → Bool) :
    (sendToConns cs fails).2 = cs.filter (fun c => fails c) := by
  induction cs with
  | nil => rfl
  | cons c rest ih =>
    cases hc : fails c <;> simp [sendToConns, hc, List.filter_cons, ih]

/-- The claim `C9`: an `analysis_update` is delivered to every
currently-connected, non-failing connection of every user — regardless of
job ownership — in spite of any send failures elsewhere; and the new
active set differs from the old only by the removal of exactly the failing
connections. -/
theorem broadcast_failure_isolated (active : List (Nat × List Nat))
    (fails : Nat → Bool) :
    (send_analysis_update active fails).1 =
      active.flatMap (fun uc => uc.2.filter (fun c => !(fails c))) ∧
    (send_analysis_update active fails).2 =
      active.map (fun uc => (uc.1, uc.2.filter (fun c => !(fails c)))) ∧
    (∀ u cs, (u, cs) ∈ active → ∀ c ∈ cs, fails c = false →
      c ∈ (send_analysis_update active fails).1) := by
  have hclean : ∀ cs : List Nat,
      cs.filter (fun c => c ∉ (sendToConns cs fails).2) =
        cs.filter (fun c => !(fails c)) := by
    intro cs
    rw [sendToConns_dead]
    refine List.filter_congr ?_
    intro c hc
    simp [List.mem_filter, hc]
  refine ⟨?_, ?_, ?_⟩
  · simp only [send_analysis_update]
    refine List.flatMap_congr ?_
    intro uc _
    exact sendToConns_delivered uc.2 fails
  · simp only [send_analysis_update]
    refine List.map_congr_left ?_
    intro uc _
    rw [hclean]
  · intro u cs hmem c hc hok
    simp only [send_analysis_update, List.mem_flatMap]
    exact ⟨(u, cs), hmem, by
      rw [sendToConns_delivered]
      exact List.mem_filter.mpr ⟨hc, by simp [hok]⟩⟩

/-- Witness for `C9`: two users, three connections, the send to connection
101 fails; connections 100 and 102 still receive the broadcast and only
101 is removed from the active set. -/
theorem broadcast_failure_isolated_witness :
    (send_analysis_update [(1, [100, 101]), (2, [102])]
      (fun c => c == 101)).1 = [100, 102] ∧
    (send_analysis_update [(1, [100, 101]), (2, [102])]
      (fun c => c == 101)).2 = [(1, [100]), (2, [102])] := by
  have h := broadcast_failure_isolated [(1, [100, 101]), (2, [102])]
    (fun c => c == 101)
  rw [h.1, h.2.1]
  exact ⟨by decide, by decide⟩

end ForgentChecklist
